import Mathlib

/-!
Verification of the retirement-calculator core: the tax engine, the take-home
converter, the binary-search withdrawal solver, the year-by-year path simulator
and the Monte Carlo aggregator, translated from `Home.py` (shared with
`retirement_calc.py` and `pages/Success_Rate_Calculator.py`).  Currency amounts
and rates are embedded as rational numbers; the per-year random return draws of
the simulator are passed in explicitly as an oracle `returns : ℕ → ℕ → ℚ`
(trial index, year index) standing for the `np.random.normal` stream.
-/

namespace Retirement

/-- Taxable portion of a Social Security benefit (single-filer combined-income
test), translated from `calculate_taxable_ss_portion` in `Home.py`. -/
def calculate_taxable_ss_portion (ss_benefit other_income : ℚ) : ℚ :=
  let combined_income := other_income + ss_benefit * 0.5
  if combined_income ≤ 25000 then 0
  else if combined_income ≤ 34000 then
    min (ss_benefit * 0.5) ((combined_income - 25000) * 0.5)
  else
    let base_taxable := min (ss_benefit * 0.5) (((34000 : ℚ) - 25000) * 0.5)
    let additional_taxable :=
      min (ss_benefit * 0.85 - base_taxable) ((combined_income - 34000) * 0.85)
    base_taxable + additional_taxable

/-- The 2024 single-filer bracket table of `calculate_federal_tax`; `none`
stands for the unbounded (`float('inf')`) top bracket. -/
def brackets : List (Option ℚ × ℚ) :=
  [(some 11600, 0.10), (some 47150, 0.12), (some 100525, 0.22),
   (some 191950, 0.24), (some 243725, 0.32), (some 609350, 0.35), (none, 0.37)]

/-- The bracket loop of `calculate_federal_tax`: per bracket, when the running
lower bound is exceeded, accumulate `min (total - prev) (limit - prev) * rate`,
and stop at the first bracket whose bound is not exceeded.  For the `none`
(infinite) bound the minimum resolves to `total - prev` and the loop stops. -/
def bracketLoop (total : ℚ) : List (Option ℚ × ℚ) → ℚ → ℚ → ℚ
  | [], _, tax => tax
  | (some lim, rate) :: rest, prev, tax =>
    let tax2 := if prev < total then tax + min (total - prev) (lim - prev) * rate else tax
    if total ≤ lim then tax2 else bracketLoop total rest lim tax2
  | (none, rate) :: _, prev, tax =>
    if prev < total then tax + (total - prev) * rate else tax

/-- Federal tax, translated from `calculate_federal_tax` in `Home.py`: the
taxable Social Security portion (included only when `ss_benefit > 0`) is added
to `income` and the bracket table is applied to the combined total. -/
def calculate_federal_tax (income ss_benefit : ℚ) : ℚ :=
  let taxable_ss :=
    if ss_benefit > 0 then calculate_taxable_ss_portion ss_benefit income else 0
  bracketLoop (income + taxable_ss) brackets 0 0

/-- North Carolina flat state tax, translated from `calculate_nc_state_tax`
(the `ss_benefit` argument is accepted and ignored, as in the source). -/
def calculate_nc_state_tax (income ss_benefit : ℚ) : ℚ :=
  income * 0.0475

/-- Take-home converter, translated from `calculate_monthly_takehome` in
`Home.py`.  Returns `(monthly net, federal tax, NC state tax, SS received)`. -/
def calculate_monthly_takehome (annual_amount : ℚ) (age ss_start_age : ℕ)
    (annual_ss_benefit : ℚ) : ℚ × ℚ × ℚ × ℚ :=
  let ss_benefit := if ss_start_age ≤ age then annual_ss_benefit else 0
  let federal_tax := calculate_federal_tax annual_amount ss_benefit
  let nc_state_tax := calculate_nc_state_tax annual_amount ss_benefit
  let after_tax := annual_amount - federal_tax - nc_state_tax + ss_benefit
  (after_tax / 12, federal_tax, nc_state_tax, ss_benefit)

/-- Closed form of the bracket loop on the concrete 2024 table, derived from
`bracketLoop` (used to reason about monotonicity of the tax function). -/
def fedPiecewise (t : ℚ) : ℚ :=
  if t ≤ 0 then 0
  else if t ≤ 11600 then t * 0.10
  else if t ≤ 47150 then 1160 + (t - 11600) * 0.12
  else if t ≤ 100525 then 5426 + (t - 47150) * 0.22
  else if t ≤ 191950 then 17168.5 + (t - 100525) * 0.24
  else if t ≤ 243725 then 39110.5 + (t - 191950) * 0.32
  else if t ≤ 609350 then 55678.5 + (t - 243725) * 0.35
  else 183647.25 + (t - 609350) * 0.37

/-- Best-candidate update of the solver loop: the midpoint and its deviation `d`
replace the best candidate so far when the best deviation is still
`float('inf')` (`none`) or when `d` improves on it. -/
def updBest (mid best d : ℚ) (bd : Option ℚ) : ℚ × Option ℚ :=
  match bd with
  | none => (mid, some d)
  | some b0 => if d < b0 then (mid, some d) else (best, some b0)

/-- The binary-search loop shared by both branches of
`calculate_annual_withdrawal_for_takehome` in `Home.py`:  while `high - low > 100`,
evaluate the midpoint, return it when its net monthly is within $10 of the
target, otherwise move the matching bound to the midpoint, tracking the best
candidate seen.  The Python `while` loop is embedded with a fuel argument; the
fuel supplied by the caller (`fuelFor`) always suffices for the loop to reach
one of its exit conditions (see `solveLoop_fuel_stable`). -/
def solveLoop (f : ℚ → ℚ) (target : ℚ) : ℕ → ℚ → ℚ → ℚ → Option ℚ → ℚ
  | 0, _, _, best, _ => best
  | fuel + 1, low, high, best, bd =>
    if high - low ≤ 100 then best
    else if |f ((low + high) / 2) - target| < 10 then (low + high) / 2
    else if f ((low + high) / 2) < target then
      solveLoop f target fuel ((low + high) / 2) high
        (updBest ((low + high) / 2) best (|f ((low + high) / 2) - target|) bd).1
        (updBest ((low + high) / 2) best (|f ((low + high) / 2) - target|) bd).2
    else
      solveLoop f target fuel low ((low + high) / 2)
        (updBest ((low + high) / 2) best (|f ((low + high) / 2) - target|) bd).1
        (updBest ((low + high) / 2) best (|f ((low + high) / 2) - target|) bd).2

/-- Fuel that always suffices for `solveLoop` on an initial bracket `[0, w]`. -/
def fuelFor (w : ℚ) : ℕ := (⌈w⌉).toNat

/-- Withdrawal solver, translated from `calculate_annual_withdrawal_for_takehome`
in `Home.py`: binary search over `[0, target_annual]` when Social Security has
started, over `[0, target_annual * 1.5]` before. -/
def calculate_annual_withdrawal_for_takehome (target_monthly : ℚ) (age ss_start_age : ℕ)
    (annual_ss_benefit : ℚ) : ℚ :=
  let target_annual := target_monthly * 12
  if ss_start_age ≤ age then
    solveLoop (fun x => (calculate_monthly_takehome x age ss_start_age annual_ss_benefit).1)
      target_monthly (fuelFor target_annual) 0 target_annual 0 none
  else
    solveLoop (fun x => (calculate_monthly_takehome x age ss_start_age annual_ss_benefit).1)
      target_monthly (fuelFor (target_annual * 1.5)) 0 (target_annual * 1.5) 0 none

/-- Per-trial mutable state of the simulation loop: the running balance and the
two inflation-escalated withdrawal tracks. -/
structure SimState where
  balance : ℚ
  withdrawal_before : ℚ
  withdrawal_after : ℚ

/-- Inner year loop of `run_retirement_analysis` in `Home.py`: per age, grow the
balance by the drawn return, subtract the before-SS withdrawal when
`age < ss_start_age` and the after-SS one otherwise, record the post-withdrawal
balance, and escalate both withdrawal tracks by `(1 + inflation_rate)`.
`r i` is the return drawn for year index `i`. -/
def simPath (ss_start_age : ℕ) (inflation_rate : ℚ) (r : ℕ → ℚ) :
    List ℕ → ℕ → SimState → List ℚ
  | [], _, _ => []
  | age :: rest, i, s =>
    (if age < ss_start_age then s.balance * (1 + r i) - s.withdrawal_before
      else s.balance * (1 + r i) - s.withdrawal_after) ::
      simPath ss_start_age inflation_rate r rest (i + 1)
        ⟨(if age < ss_start_age then s.balance * (1 + r i) - s.withdrawal_before
           else s.balance * (1 + r i) - s.withdrawal_after),
         s.withdrawal_before * (1 + inflation_rate),
         s.withdrawal_after * (1 + inflation_rate)⟩

/-- Linear interpolation at fractional position `p` into a sorted sample:
the value `s[⌊p⌋] + (p - ⌊p⌋)·(s[⌊p⌋+1] - s[⌊p⌋])` (the upper order statistic
falls back to the lower one at the right edge). -/
def interpAt (s : List ℚ) (p : ℚ) : ℚ :=
  let k := (⌊p⌋).toNat
  let lo := s.getD k 0
  let hi := s.getD (k + 1) lo
  lo + (p - (k : ℚ)) * (hi - lo)

/-- Modelled from the spec: `np.percentile(·, q)` with the standard
linear-interpolation method — position `q/100·(n-1)` into the sorted sample,
interpolating between the two neighbouring order statistics (the `numpy`
library routine is not part of the repository sources). -/
def percentile (q : ℚ) (xs : List ℚ) : ℚ :=
  let s := List.insertionSort (· ≤ ·) xs
  if s.length = 0 then 0
  else interpAt s (q / 100 * ((s.length : ℚ) - 1))

/-- Column `i` of the simulation matrix: every trial's balance at age index `i`
(`all_simulations[:, i]`). -/
def columnAt (sims : List (List ℚ)) (i : ℕ) : List ℚ :=
  sims.map (fun p => p.getD i 0)

/-- Result record of `run_retirement_analysis`. -/
structure AnalysisResult where
  success_rate : ℚ
  withdrawal_before_ss : ℚ
  withdrawal_after_ss : ℚ
  years : List ℕ
  p5 : List ℚ
  p25 : List ℚ
  p50 : List ℚ
  p75 : List ℚ
  p95 : List ℚ
  all_simulations : List (List ℚ)

/-- Monte Carlo aggregator, translated from `run_retirement_analysis` in
`Home.py`.  `mean_return` and `volatility` feed only the normal sampler there;
here the drawn return of trial `t`, year `i` is supplied by the oracle
`returns t i`. -/
def run_retirement_analysis (initial_balance mean_return volatility inflation_rate : ℚ)
    (start_age ss_start_age end_age : ℕ)
    (target_monthly_takehome annual_ss_benefit : ℚ)
    (num_simulations : ℕ) (returns : ℕ → ℕ → ℚ) : AnalysisResult :=
  let withdrawal_before_ss := calculate_annual_withdrawal_for_takehome
    target_monthly_takehome start_age ss_start_age annual_ss_benefit
  let withdrawal_after_ss := calculate_annual_withdrawal_for_takehome
    target_monthly_takehome ss_start_age ss_start_age annual_ss_benefit
  let years : List ℕ := (List.range (end_age + 1 - start_age)).map (fun i => start_age + i)
  let all_simulations : List (List ℚ) := (List.range num_simulations).map (fun t =>
    simPath ss_start_age inflation_rate (returns t) years 0
      ⟨initial_balance, withdrawal_before_ss, withdrawal_after_ss⟩)
  let finals : List ℚ := all_simulations.map (fun p => p.getD (end_age + 1 - start_age - 1) 0)
  { success_rate :=
      ((finals.countP (fun b => decide (0 < b)) : ℚ) / (num_simulations : ℚ)) * 100
    withdrawal_before_ss := withdrawal_before_ss
    withdrawal_after_ss := withdrawal_after_ss
    years := years
    p5 := (List.range (end_age + 1 - start_age)).map
      (fun i => percentile 5 (columnAt all_simulations i))
    p25 := (List.range (end_age + 1 - start_age)).map
      (fun i => percentile 25 (columnAt all_simulations i))
    p50 := (List.range (end_age + 1 - start_age)).map
      (fun i => percentile 50 (columnAt all_simulations i))
    p75 := (List.range (end_age + 1 - start_age)).map
      (fun i => percentile 75 (columnAt all_simulations i))
    p95 := (List.range (end_age + 1 - start_age)).map
      (fun i => percentile 95 (columnAt all_simulations i))
    all_simulations := all_simulations }

/-- The piecewise reference definition of the taxable Social Security portion,
following the specification text: with `combined = other_income + 0.5·benefit`,
0 below 25,000; `min(0.5·benefit, 0.5·(combined-25000))` up to 34,000;
otherwise `base + additional` with `base = min(0.5·benefit, 4500)` and
`additional = min(0.85·benefit - base, 0.85·(combined-34000))`. -/
def taxable_ss_spec (benefit other_income : ℚ) : ℚ :=
  let combined := other_income + 0.5 * benefit
  if combined ≤ 25000 then 0
  else if combined ≤ 34000 then min (0.5 * benefit) (0.5 * (combined - 25000))
  else
    let base := min (0.5 * benefit) 4500
    base + min (0.85 * benefit - base) (0.85 * (combined - 34000))

theorem bracketLoop_stop {total prev lim rate tax : ℚ} {rest : List (Option ℚ × ℚ)}
    (hp : prev < total) (hl : total ≤ lim) :
    bracketLoop total ((some lim, rate) :: rest) prev tax = tax + (total - prev) * rate := by
  have hmin : min (total - prev) (lim - prev) = total - prev := min_eq_left (by linarith)
  simp only [bracketLoop]
  rw [if_pos hl, if_pos hp, hmin]

theorem bracketLoop_stop_zero {total prev lim rate tax : ℚ} {rest : List (Option ℚ × ℚ)}
    (hp : total ≤ prev) (hl : total ≤ lim) :
    bracketLoop total ((some lim, rate) :: rest) prev tax = tax := by
  simp only [bracketLoop]
  rw [if_pos hl, if_neg (not_lt.mpr hp)]

theorem bracketLoop_step {total prev lim rate tax : ℚ} {rest : List (Option ℚ × ℚ)}
    (hp : prev ≤ lim) (hl : lim < total) :
    bracketLoop total ((some lim, rate) :: rest) prev tax =
      bracketLoop total rest lim (tax + (lim - prev) * rate) := by
  have hpt : prev < total := lt_of_le_of_lt hp hl
  have hmin : min (total - prev) (lim - prev) = lim - prev := min_eq_right (by linarith)
  simp only [bracketLoop]
  rw [if_neg (not_le.mpr hl), if_pos hpt, hmin]

theorem bracketLoop_inf {total prev rate tax : ℚ} {rest : List (Option ℚ × ℚ)}
    (hp : prev < total) :
    bracketLoop total ((none, rate) :: rest) prev tax = tax + (total - prev) * rate := by
  simp only [bracketLoop]
  rw [if_pos hp]

theorem bracketLoop_eq_fedPiecewise (t : ℚ) :
    bracketLoop t brackets 0 0 = fedPiecewise t := by
  unfold brackets
  by_cases h0 : t ≤ 0
  · rw [bracketLoop_stop_zero h0 (by linarith)]
    simp only [fedPiecewise]; split_ifs <;> linarith
  by_cases h1 : t ≤ 11600
  · rw [bracketLoop_stop (by linarith) h1]
    simp only [fedPiecewise]; split_ifs <;> linarith
  by_cases h2 : t ≤ 47150
  · rw [bracketLoop_step (by norm_num) (by linarith), bracketLoop_stop (by linarith) h2]
    simp only [fedPiecewise]; split_ifs <;> linarith
  by_cases h3 : t ≤ 100525
  · rw [bracketLoop_step (by norm_num) (by linarith), bracketLoop_step (by norm_num) (by linarith),
      bracketLoop_stop (by linarith) h3]
    simp only [fedPiecewise]; split_ifs <;> linarith
  by_cases h4 : t ≤ 191950
  · rw [bracketLoop_step (by norm_num) (by linarith), bracketLoop_step (by norm_num) (by linarith),
      bracketLoop_step (by norm_num) (by linarith), bracketLoop_stop (by linarith) h4]
    simp only [fedPiecewise]; split_ifs <;> linarith
  by_cases h5 : t ≤ 243725
  · rw [bracketLoop_step (by norm_num) (by linarith), bracketLoop_step (by norm_num) (by linarith),
      bracketLoop_step (by norm_num) (by linarith), bracketLoop_step (by norm_num) (by linarith),
      bracketLoop_stop (by linarith) h5]
    simp only [fedPiecewise]; split_ifs <;> linarith
  by_cases h6 : t ≤ 609350
  · rw [bracketLoop_step (by norm_num) (by linarith), bracketLoop_step (by norm_num) (by linarith),
      bracketLoop_step (by norm_num) (by linarith), bracketLoop_step (by norm_num) (by linarith),
      bracketLoop_step (by norm_num) (by linarith), bracketLoop_stop (by linarith) h6]
    simp only [fedPiecewise]; split_ifs <;> linarith
  · rw [bracketLoop_step (by norm_num) (by linarith), bracketLoop_step (by norm_num) (by linarith),
      bracketLoop_step (by norm_num) (by linarith), bracketLoop_step (by norm_num) (by linarith),
      bracketLoop_step (by norm_num) (by linarith), bracketLoop_step (by norm_num) (by linarith),
      bracketLoop_inf (by linarith)]
    simp only [fedPiecewise]; split_ifs <;> linarith

theorem fedPiecewise_nonneg (t : ℚ) : 0 ≤ fedPiecewise t := by
  simp only [fedPiecewise]; split_ifs <;> linarith

set_option maxHeartbeats 2000000 in
theorem fedPiecewise_mono {a b : ℚ} (h : a ≤ b) : fedPiecewise a ≤ fedPiecewise b := by
  simp only [fedPiecewise]; split_ifs <;> linarith

set_option maxHeartbeats 2000000 in
theorem fedPiecewise_lipschitz {a b : ℚ} (h : a ≤ b) :
    fedPiecewise b - fedPiecewise a ≤ 0.37 * (b - a) := by
  simp only [fedPiecewise]; split_ifs <;> linarith

theorem fedPiecewise_le (t : ℚ) (ht : 0 ≤ t) : fedPiecewise t ≤ 0.37 * t := by
  simp only [fedPiecewise]; split_ifs <;> linarith

theorem taxable_nonneg (b o : ℚ) (hb : 0 ≤ b) : 0 ≤ calculate_taxable_ss_portion b o := by
  simp only [calculate_taxable_ss_portion, min_def]
  split_ifs <;> linarith

theorem taxable_le (b o : ℚ) (hb : 0 ≤ b) :
    calculate_taxable_ss_portion b o ≤ 0.85 * b := by
  simp only [calculate_taxable_ss_portion, min_def]
  split_ifs <;> linarith

set_option maxHeartbeats 2000000 in
theorem taxable_mono_benefit {b1 b2 : ℚ} (o : ℚ) (hb1 : 0 ≤ b1) (h : b1 ≤ b2) :
    calculate_taxable_ss_portion b1 o ≤ calculate_taxable_ss_portion b2 o := by
  simp only [calculate_taxable_ss_portion, min_def]
  split_ifs <;> linarith

theorem taxable_mono_income (b : ℚ) {o1 o2 : ℚ} (hb : 0 ≤ b) (h : o1 ≤ o2) :
    calculate_taxable_ss_portion b o1 ≤ calculate_taxable_ss_portion b o2 := by
  simp only [calculate_taxable_ss_portion, min_def]
  split_ifs <;> linarith

theorem taxable_lipschitz_income (b : ℚ) {o1 o2 : ℚ} (hb : 0 ≤ b) (h : o1 ≤ o2) :
    calculate_taxable_ss_portion b o2 - calculate_taxable_ss_portion b o1 ≤
      0.85 * (o2 - o1) := by
  simp only [calculate_taxable_ss_portion, min_def]
  split_ifs <;> linarith

theorem takehome_fst (x : ℚ) (age ssa : ℕ) (ss : ℚ) :
    (calculate_monthly_takehome x age ssa ss).1 =
      (x - fedPiecewise (x + (if (if ssa ≤ age then ss else 0) > 0
            then calculate_taxable_ss_portion (if ssa ≤ age then ss else 0) x else 0))
        - x * 0.0475 + (if ssa ≤ age then ss else 0)) / 12 := by
  simp only [calculate_monthly_takehome, calculate_federal_tax, calculate_nc_state_tax]
  rw [bracketLoop_eq_fedPiecewise]

theorem takehome_mono {age ssa : ℕ} {ss : ℚ} (hss : 0 ≤ ss) {a b : ℚ} (hab : a ≤ b) :
    (calculate_monthly_takehome a age ssa ss).1 ≤ (calculate_monthly_takehome b age ssa ss).1 := by
  rw [takehome_fst, takehome_fst]
  set ssb := if ssa ≤ age then ss else 0 with hssb
  have hssb0 : 0 ≤ ssb := by rw [hssb]; split <;> simp [hss]
  set Ta := if ssb > 0 then calculate_taxable_ss_portion ssb a else 0 with hTa
  set Tb := if ssb > 0 then calculate_taxable_ss_portion ssb b else 0 with hTb
  have hT : Ta ≤ Tb ∧ Tb - Ta ≤ 0.85 * (b - a) := by
    rw [hTa, hTb]; by_cases h : ssb > 0
    · simp only [if_pos h]
      exact ⟨taxable_mono_income ssb hssb0 hab, taxable_lipschitz_income ssb hssb0 hab⟩
    · simp only [if_neg h]; exact ⟨le_rfl, by linarith⟩
  have hgab : a + Ta ≤ b + Tb := by linarith [hT.1]
  have hFlip : fedPiecewise (b + Tb) - fedPiecewise (a + Ta) ≤ 0.37 * ((b + Tb) - (a + Ta)) :=
    fedPiecewise_lipschitz hgab
  have h37 : fedPiecewise (b + Tb) - fedPiecewise (a + Ta) ≤ 0.37 * (1.85 * (b - a)) := by
    have h1 : (b + Tb) - (a + Ta) ≤ 1.85 * (b - a) := by linarith [hT.2]
    nlinarith [hFlip, h1]
  rw [div_le_div_iff_of_pos_right (by norm_num : (0:ℚ) < 12)]
  linarith

theorem takehome_lipschitz {age ssa : ℕ} {ss : ℚ} (hss : 0 ≤ ss) {a b : ℚ} (hab : a ≤ b) :
    (calculate_monthly_takehome b age ssa ss).1 - (calculate_monthly_takehome a age ssa ss).1 ≤
      0.079375 * (b - a) := by
  rw [takehome_fst, takehome_fst]
  set ssb := if ssa ≤ age then ss else 0 with hssb
  have hssb0 : 0 ≤ ssb := by rw [hssb]; split <;> simp [hss]
  set Ta := if ssb > 0 then calculate_taxable_ss_portion ssb a else 0 with hTa
  set Tb := if ssb > 0 then calculate_taxable_ss_portion ssb b else 0 with hTb
  have hT : Ta ≤ Tb := by
    rw [hTa, hTb]; by_cases h : ssb > 0
    · simp only [if_pos h]; exact taxable_mono_income ssb hssb0 hab
    · simp only [if_neg h]; exact le_rfl
  have hgab : a + Ta ≤ b + Tb := by linarith
  have hFmono : fedPiecewise (a + Ta) ≤ fedPiecewise (b + Tb) := fedPiecewise_mono hgab
  rw [div_sub_div_same, div_le_iff₀ (by norm_num : (0:ℚ) < 12)]
  linarith

theorem takehome_zero_nonneg (age ssa : ℕ) {ss : ℚ} (hss : 0 ≤ ss) :
    0 ≤ (calculate_monthly_takehome 0 age ssa ss).1 := by
  rw [takehome_fst]
  set ssb := if ssa ≤ age then ss else 0 with hssb
  have hssb0 : 0 ≤ ssb := by rw [hssb]; split <;> simp [hss]
  set T0 := if ssb > 0 then calculate_taxable_ss_portion ssb 0 else 0 with hT0
  have hT0mem : 0 ≤ T0 ∧ T0 ≤ 0.85 * ssb := by
    rw [hT0]; by_cases h : ssb > 0
    · simp only [if_pos h]
      exact ⟨taxable_nonneg ssb 0 hssb0, taxable_le ssb 0 hssb0⟩
    · simp only [if_neg h]; constructor <;> linarith
  have hF : fedPiecewise (0 + T0) ≤ 0.37 * (0 + T0) := fedPiecewise_le _ (by linarith [hT0mem.1])
  have h12 : (0:ℚ) < 12 := by norm_num
  apply div_nonneg _ (by norm_num)
  nlinarith [hT0mem.1, hT0mem.2, hF]

theorem le_fuelFor (w : ℚ) : w ≤ 100 * 2 ^ fuelFor w := by
  have h2 : (0:ℚ) < 2 ^ fuelFor w := by positivity
  rcases le_or_lt w 0 with h | h
  · linarith
  · have h1 : w ≤ (⌈w⌉ : ℚ) := Int.le_ceil w
    have h0 : (0:ℤ) ≤ ⌈w⌉ := Int.ceil_nonneg h.le
    have h3 : ((fuelFor w : ℕ) : ℚ) = ((⌈w⌉ : ℤ) : ℚ) := by
      rw [fuelFor]; exact_mod_cast congrArg (fun z : ℤ => (z : ℚ)) (Int.toNat_of_nonneg h0)
    have h4 : ((fuelFor w : ℕ) : ℚ) < 2 ^ fuelFor w := by
      have hn : fuelFor w < 2 ^ fuelFor w := Nat.lt_two_pow _
      exact_mod_cast hn
    linarith

theorem updBest_spec (mid best d : ℚ) (bd : Option ℚ) :
    ((updBest mid best d bd).1 = mid ∧ (updBest mid best d bd).2 = some d) ∨
    (∃ b0, bd = some b0 ∧ b0 ≤ d ∧
      (updBest mid best d bd).1 = best ∧ (updBest mid best d bd).2 = some b0) := by
  cases bd with
  | none => exact Or.inl ⟨rfl, rfl⟩
  | some b0 =>
    by_cases h : d < b0
    · refine Or.inl ⟨?_, ?_⟩ <;> simp [updBest, h]
    · refine Or.inr ⟨b0, rfl, le_of_not_lt h, ?_, ?_⟩ <;> simp [updBest, h]

theorem updBest_fst_or (mid best d : ℚ) (bd : Option ℚ) :
    (updBest mid best d bd).1 = mid ∨ (updBest mid best d bd).1 = best := by
  rcases updBest_spec mid best d bd with ⟨h1, _⟩ | ⟨_, _, _, h1, _⟩
  · exact Or.inl h1
  · exact Or.inr h1

theorem solveLoop_exit {f : ℚ → ℚ} {target low high best : ℚ} {bd : Option ℚ} (n : ℕ)
    (hw : high - low ≤ 100) : solveLoop f target n low high best bd = best := by
  cases n with
  | zero => rfl
  | succ m => rw [solveLoop, if_pos hw]

theorem close_of_inv {f : ℚ → ℚ} {target L low high best : ℚ} {bd : Option ℚ}
    (hL : 0 ≤ L) (hL100 : L * 100 < 10) (hw100 : high - low ≤ 100)
    (hsome : ∀ d, bd = some d → |f best - target| = d ∧ d ≤ L * (high - low))
    (hnone : bd = none → 100 < high - low ∨ |f best - target| < 10) :
    |f best - target| < 10 := by
  cases bd with
  | none =>
    rcases hnone rfl with h | h
    · linarith
    · exact h
  | some d =>
    obtain ⟨h1, h2⟩ := hsome d rfl
    have h3 : L * (high - low) ≤ L * 100 := mul_le_mul_of_nonneg_left hw100 hL
    linarith

theorem solveLoop_close (f : ℚ → ℚ) (target L : ℚ) (hL : 0 ≤ L) (hL100 : L * 100 < 10)
    (hLip : ∀ a b : ℚ, a ≤ b → f b - f a ≤ L * (b - a)) :
    ∀ (fuel : ℕ) (low high best : ℚ) (bd : Option ℚ),
      f low ≤ target → target ≤ f high → low ≤ high → high - low ≤ 100 * 2 ^ fuel →
      (∀ d, bd = some d → |f best - target| = d ∧ d ≤ L * (high - low)) →
      (bd = none → 100 < high - low ∨ |f best - target| < 10) →
      |f (solveLoop f target fuel low high best bd) - target| < 10 := by
  intro fuel
  induction fuel with
  | zero =>
    intro low high best bd hfl hfh hlh hw hsome hnone
    have hw100 : high - low ≤ 100 := by simpa using hw
    rw [solveLoop_exit 0 hw100]
    exact close_of_inv hL hL100 hw100 hsome hnone
  | succ n ih =>
    intro low high best bd hfl hfh hlh hw hsome hnone
    by_cases hw100 : high - low ≤ 100
    · rw [solveLoop_exit (n + 1) hw100]
      exact close_of_inv hL hL100 hw100 hsome hnone
    · have hwlt : 100 < high - low := not_le.mp hw100
      rw [solveLoop, if_neg hw100]
      set mid := (low + high) / 2 with hmid
      have hmid_lo : low ≤ mid := by rw [hmid]; linarith
      have hmid_hi : mid ≤ high := by rw [hmid]; linarith
      have hhalf_hi : high - mid = (high - low) / 2 := by rw [hmid]; ring
      have hhalf_lo : mid - low = (high - low) / 2 := by rw [hmid]; ring
      by_cases hhit : |f mid - target| < 10
      · rw [if_pos hhit]; exact hhit
      · rw [if_neg hhit]
        have hd2 : |f mid - target| ≤ L * ((high - low) / 2) := by
          rcases le_or_lt (f mid) target with hfm | hfm
          · rw [abs_of_nonpos (by linarith)]
            have h1 := hLip mid high hmid_hi
            rw [hhalf_hi] at h1
            linarith
          · rw [abs_of_pos (by linarith)]
            have h1 := hLip low mid hmid_lo
            rw [hhalf_lo] at h1
            linarith
        have hwidth : (high - low) / 2 ≤ 100 * 2 ^ n := by
          rw [pow_succ] at hw; linarith
        have hsome2 : ∀ d2,
            (updBest mid best (|f mid - target|) bd).2 = some d2 →
            |f (updBest mid best (|f mid - target|) bd).1 - target| = d2 ∧
              d2 ≤ L * ((high - low) / 2) := by
          intro d2 hd
          rcases updBest_spec mid best (|f mid - target|) bd with ⟨h1, h2⟩ | ⟨b0, hbd, hble, h1, h2⟩
          · rw [h2] at hd
            injection hd with hd
            rw [h1]
            exact ⟨hd, hd ▸ hd2⟩
          · rw [h2] at hd
            injection hd with hd
            obtain ⟨h3, _⟩ := hsome b0 hbd
            subst hd
            rw [h1]
            exact ⟨h3, le_trans hble hd2⟩
        have hnone2 : (updBest mid best (|f mid - target|) bd).2 = none →
            100 < (high - low) / 2 ∨
              |f (updBest mid best (|f mid - target|) bd).1 - target| < 10 := by
          intro hd
          rcases updBest_spec mid best (|f mid - target|) bd with ⟨_, h2⟩ | ⟨b0, _, _, _, h2⟩ <;>
            rw [h2] at hd <;> cases hd
        by_cases hflt : f mid < target
        · rw [if_pos hflt]
          exact ih mid high _ _ (le_of_lt hflt) hfh hmid_hi
            (by rw [hhalf_hi]; exact hwidth)
            (by rw [hhalf_hi]; exact hsome2)
            (by rw [hhalf_hi]; exact hnone2)
        · rw [if_neg hflt]
          exact ih low mid _ _ hfl (le_of_not_lt hflt) hmid_lo
            (by rw [hhalf_lo]; exact hwidth)
            (by rw [hhalf_lo]; exact hsome2)
            (by rw [hhalf_lo]; exact hnone2)

theorem solveLoop_mem (f : ℚ → ℚ) (target U : ℚ) :
    ∀ (fuel : ℕ) (low high best : ℚ) (bd : Option ℚ),
      0 ≤ low → low ≤ high → high ≤ U → 0 ≤ best → best ≤ U →
      0 ≤ solveLoop f target fuel low high best bd ∧
        solveLoop f target fuel low high best bd ≤ U := by
  intro fuel
  induction fuel with
  | zero =>
    intro low high best bd _ _ _ hb0 hbU
    exact ⟨hb0, hbU⟩
  | succ n ih =>
    intro low high best bd hl0 hlh hhU hb0 hbU
    have hm0 : 0 ≤ (low + high) / 2 := by linarith
    have hmU : (low + high) / 2 ≤ U := by linarith
    have hup0 : 0 ≤ (updBest ((low + high) / 2) best (|f ((low + high) / 2) - target|) bd).1 := by
      rcases updBest_fst_or ((low + high) / 2) best (|f ((low + high) / 2) - target|) bd with h | h <;>
        rw [h] <;> assumption
    have hupU : (updBest ((low + high) / 2) best (|f ((low + high) / 2) - target|) bd).1 ≤ U := by
      rcases updBest_fst_or ((low + high) / 2) best (|f ((low + high) / 2) - target|) bd with h | h <;>
        rw [h] <;> assumption
    rw [solveLoop]
    split_ifs with hw hhit hflt
    · exact ⟨hb0, hbU⟩
    · exact ⟨hm0, hmU⟩
    · exact ih _ _ _ _ hm0 (by linarith) hhU hup0 hupU
    · exact ih _ _ _ _ hl0 (by linarith) hmU hup0 hupU

theorem solveLoop_fuel_stable (f : ℚ → ℚ) (target : ℚ) :
    ∀ (fuel k : ℕ) (low high best : ℚ) (bd : Option ℚ),
      high - low ≤ 100 * 2 ^ fuel →
      solveLoop f target (fuel + k) low high best bd =
        solveLoop f target fuel low high best bd := by
  intro fuel
  induction fuel with
  | zero =>
    intro k low high best bd hw
    have hw100 : high - low ≤ 100 := by simpa using hw
    rw [solveLoop_exit (0 + k) hw100, solveLoop_exit 0 hw100]
  | succ n ih =>
    intro k low high best bd hw
    by_cases hw100 : high - low ≤ 100
    · rw [solveLoop_exit (n + 1 + k) hw100, solveLoop_exit (n + 1) hw100]
    · have hre : n + 1 + k = (n + k) + 1 := by omega
      rw [hre, solveLoop, solveLoop, if_neg hw100, if_neg hw100]
      have hwidth : (high - low) / 2 ≤ 100 * 2 ^ n := by
        rw [pow_succ] at hw; linarith
      by_cases hhit : |f ((low + high) / 2) - target| < 10
      · rw [if_pos hhit, if_pos hhit]
      · rw [if_neg hhit, if_neg hhit]
        by_cases hflt : f ((low + high) / 2) < target
        · rw [if_pos hflt, if_pos hflt]
          apply ih
          have : high - (low + high) / 2 = (high - low) / 2 := by ring
          rw [this]; exact hwidth
        · rw [if_neg hflt, if_neg hflt]
          apply ih
          have : (low + high) / 2 - low = (high - low) / 2 := by ring
          rw [this]; exact hwidth

theorem getD_of_lt {α : Type} (l : List α) (d : α) {n : ℕ} (h : n < l.length) :
    l.getD n d = l[n] := by
  rw [List.getD_eq_getElem?_getD, List.getElem?_eq_getElem h, Option.getD_some]

theorem map_range_getD {α : Type} [Inhabited α] (f : ℕ → α) (n i : ℕ) (hi : i < n) (d : α) :
    ((List.range n).map f).getD i d = f i := by
  have hlen : i < ((List.range n).map f).length := by
    simpa using hi
  rw [getD_of_lt _ _ hlen, List.getElem_map, List.getElem_range]

theorem simPath_length (ssa : ℕ) (g : ℚ) (r : ℕ → ℚ) :
    ∀ (ages : List ℕ) (i : ℕ) (s : SimState),
      (simPath ssa g r ages i s).length = ages.length := by
  intro ages
  induction ages with
  | nil => intro i s; rfl
  | cons a rest ih =>
    intro i s
    simp only [simPath, List.length_cons, ih]

theorem simPath_getD_zero (ssa : ℕ) (g : ℚ) (r : ℕ → ℚ) (a : ℕ) (rest : List ℕ)
    (i : ℕ) (s : SimState) :
    (simPath ssa g r (a :: rest) i s).getD 0 0 =
      (if a < ssa then s.balance * (1 + r i) - s.withdrawal_before
        else s.balance * (1 + r i) - s.withdrawal_after) := by
  simp only [simPath, List.getD_cons_zero]

theorem simPath_getD_succ (ssa : ℕ) (g : ℚ) (r : ℕ → ℚ) :
    ∀ (ages : List ℕ) (i : ℕ) (s : SimState) (j : ℕ), j + 1 < ages.length →
      (simPath ssa g r ages i s).getD (j + 1) 0 =
        (simPath ssa g r ages i s).getD j 0 * (1 + r (i + j + 1)) -
          (if ages.getD (j + 1) 0 < ssa
            then s.withdrawal_before * (1 + g) ^ (j + 1)
            else s.withdrawal_after * (1 + g) ^ (j + 1)) := by
  intro ages
  induction ages with
  | nil => intro i s j hj; simp at hj
  | cons a rest ih =>
    intro i s j hj
    cases j with
    | zero =>
      cases rest with
      | nil => simp at hj
      | cons a2 rest2 =>
        simp only [simPath, List.getD_cons_succ, List.getD_cons_zero]
        split_ifs <;> ring
    | succ j2 =>
      have hj2 : j2 + 1 < rest.length := by simpa using hj
      simp only [simPath, List.getD_cons_succ]
      rw [ih (i + 1) _ j2 hj2]
      have hidx : i + 1 + j2 + 1 = i + (j2 + 1) + 1 := by omega
      rw [hidx]
      dsimp only
      split_ifs <;> ring

theorem getD_of_le {α : Type} (l : List α) (d : α) {n : ℕ} (h : l.length ≤ n) :
    l.getD n d = d := by
  rw [List.getD_eq_getElem?_getD, List.getElem?_eq_none h, Option.getD_none]

theorem sorted_getD_mono {s : List ℚ} (hs : List.Sorted (· ≤ ·) s) {i j : ℕ}
    (hij : i ≤ j) (hj : j < s.length) : s.getD i 0 ≤ s.getD j 0 := by
  have hi : i < s.length := lt_of_le_of_lt hij hj
  rw [getD_of_lt _ _ hi, getD_of_lt _ _ hj]
  have h2 := hs.rel_get_of_le (show (⟨i, hi⟩ : Fin s.length) ≤ ⟨j, hj⟩ from hij)
  simpa using h2

theorem interp_lo_le_hi {s : List ℚ} (hs : List.Sorted (· ≤ ·) s) {k : ℕ}
    (hk : k < s.length) : s.getD k 0 ≤ s.getD (k + 1) (s.getD k 0) := by
  rcases lt_or_ge (k + 1) s.length with h | h
  · have e1 : s.getD (k + 1) (s.getD k 0) = s.getD (k + 1) 0 := by
      rw [getD_of_lt _ _ h, getD_of_lt _ _ h]
    rw [e1]
    exact sorted_getD_mono hs (Nat.le_succ k) h
  · rw [getD_of_le _ _ h]

theorem interpAt_mono {s : List ℚ} (hs : List.Sorted (· ≤ ·) s) {p1 p2 : ℚ}
    (h0 : 0 ≤ p1) (h12 : p1 ≤ p2) (hub : p2 ≤ (s.length : ℚ) - 1) :
    interpAt s p1 ≤ interpAt s p2 := by
  have h02 : 0 ≤ p2 := le_trans h0 h12
  have hfl1 : (0:ℤ) ≤ ⌊p1⌋ := Int.floor_nonneg.mpr h0
  have hfl2 : (0:ℤ) ≤ ⌊p2⌋ := Int.floor_nonneg.mpr h02
  set k1 := (⌊p1⌋).toNat with hk1
  set k2 := (⌊p2⌋).toNat with hk2
  have hc1 : (k1 : ℚ) = ((⌊p1⌋ : ℤ) : ℚ) := by
    rw [hk1]; exact_mod_cast Int.toNat_of_nonneg hfl1
  have hc2 : (k2 : ℚ) = ((⌊p2⌋ : ℤ) : ℚ) := by
    rw [hk2]; exact_mod_cast Int.toNat_of_nonneg hfl2
  have hle1 : (k1:ℚ) ≤ p1 := by rw [hc1]; exact Int.floor_le p1
  have hlt1 : p1 < (k1:ℚ) + 1 := by rw [hc1]; exact_mod_cast Int.lt_floor_add_one p1
  have hle2 : (k2:ℚ) ≤ p2 := by rw [hc2]; exact Int.floor_le p2
  have hk12 : k1 ≤ k2 := by
    rw [hk1, hk2]; exact Int.toNat_le_toNat (Int.floor_mono h12)
  have hk2n : k2 < s.length := by
    have h1 : (k2:ℚ) < (s.length:ℚ) := by linarith
    exact_mod_cast h1
  have hk1n : k1 < s.length := lt_of_le_of_lt hk12 hk2n
  simp only [interpAt]
  rw [← hk1, ← hk2]
  rcases Nat.eq_or_lt_of_le hk12 with heq | hlt
  · rw [heq]
    have hlohi := interp_lo_le_hi hs hk2n
    have hprod := mul_nonneg (sub_nonneg.mpr h12) (sub_nonneg.mpr hlohi)
    have heqq : (k1:ℚ) = (k2:ℚ) := by exact_mod_cast heq
    nlinarith [hprod]
  · have h1n : k1 + 1 < s.length := lt_of_le_of_lt (Nat.succ_le_of_lt hlt) hk2n
    have hi1lo2 : s.getD (k1 + 1) (s.getD k1 0) ≤ s.getD k2 0 := by
      have e1 : s.getD (k1 + 1) (s.getD k1 0) = s.getD (k1 + 1) 0 := by
        rw [getD_of_lt _ _ h1n, getD_of_lt _ _ h1n]
      rw [e1]
      exact sorted_getD_mono hs (Nat.succ_le_of_lt hlt) hk2n
    have hlohi1 := interp_lo_le_hi hs hk1n
    have hlohi2 := interp_lo_le_hi hs hk2n
    have hval1 : s.getD k1 0 + (p1 - (k1:ℚ)) * (s.getD (k1 + 1) (s.getD k1 0) - s.getD k1 0) ≤
        s.getD (k1 + 1) (s.getD k1 0) := by
      nlinarith [mul_nonneg (by linarith : (0:ℚ) ≤ (k1:ℚ) + 1 - p1) (sub_nonneg.mpr hlohi1)]
    have hval2 : s.getD k2 0 ≤
        s.getD k2 0 + (p2 - (k2:ℚ)) * (s.getD (k2 + 1) (s.getD k2 0) - s.getD k2 0) := by
      nlinarith [mul_nonneg (by linarith : (0:ℚ) ≤ p2 - (k2:ℚ)) (sub_nonneg.mpr hlohi2)]
    linarith

theorem percentile_mono {q1 q2 : ℚ} (xs : List ℚ) (hxs : xs ≠ [])
    (h0 : 0 ≤ q1) (h12 : q1 ≤ q2) (h100 : q2 ≤ 100) :
    percentile q1 xs ≤ percentile q2 xs := by
  have hlen : (List.insertionSort (· ≤ ·) xs).length = xs.length :=
    (List.perm_insertionSort _ xs).length_eq
  have hne : (List.insertionSort (· ≤ ·) xs).length ≠ 0 := by
    rw [hlen]
    intro h
    exact hxs (List.eq_nil_of_length_eq_zero h)
  have hn1 : (1:ℕ) ≤ (List.insertionSort (· ≤ ·) xs).length := Nat.one_le_iff_ne_zero.mpr hne
  have hq : (0:ℚ) ≤ ((List.insertionSort (· ≤ ·) xs).length : ℚ) - 1 := by
    have h1 : (1:ℚ) ≤ ((List.insertionSort (· ≤ ·) xs).length : ℚ) := by exact_mod_cast hn1
    linarith
  simp only [percentile]
  rw [if_neg hne, if_neg hne]
  apply interpAt_mono (List.sorted_insertionSort _ xs)
  · exact mul_nonneg (div_nonneg h0 (by norm_num)) hq
  · exact mul_le_mul_of_nonneg_right (by linarith) hq
  · calc q2 / 100 * (((List.insertionSort (· ≤ ·) xs).length : ℚ) - 1) ≤
        1 * (((List.insertionSort (· ≤ ·) xs).length : ℚ) - 1) :=
          mul_le_mul_of_nonneg_right (by linarith) hq
      _ = ((List.insertionSort (· ≤ ·) xs).length : ℚ) - 1 := one_mul _

/-- C3: for all non-negative `benefit` and `other_income`, the taxable
Social Security portion computed by the code equals the piecewise reference
definition of the specification. -/
theorem C3_taxable_matches_spec (b o : ℚ) (hb : 0 ≤ b) (ho : 0 ≤ o) :
    calculate_taxable_ss_portion b o = taxable_ss_spec b o := by
  simp only [calculate_taxable_ss_portion, taxable_ss_spec]
  have e0 : o + b * 0.5 = o + 0.5 * b := by ring
  rw [e0]
  split_ifs with h1 h2
  · rfl
  · congr 1 <;> ring
  · have e1 : min (b * 0.5) (((34000:ℚ) - 25000) * 0.5) = min (0.5 * b) 4500 := by
      congr 1
      · ring
      · norm_num
    rw [e1]
    congr 1
    congr 1 <;> ring

theorem C3_witness : (0:ℚ) ≤ 35160 ∧ (0:ℚ) ≤ 40000 ∧
    calculate_taxable_ss_portion 35160 40000 = taxable_ss_spec 35160 40000 :=
  ⟨by norm_num, by norm_num,
    C3_taxable_matches_spec 35160 40000 (by norm_num) (by norm_num)⟩

/-- C4: with `ss_benefit = 0` the federal tax is the flat marginal application
of the hardcoded 7-bracket table to `income` alone (the Social Security
adjustment is skipped), whose closed form is `fedPiecewise`; in particular
`federal_tax 0 0 = 0` and `federal_tax 11600 0 = 1160`. -/
theorem C4_federal_flat (income : ℚ) (hinc : 0 ≤ income) :
    calculate_federal_tax income 0 = bracketLoop income brackets 0 0 ∧
    calculate_federal_tax income 0 = fedPiecewise income ∧
    calculate_federal_tax 0 0 = 0 ∧
    calculate_federal_tax 11600 0 = 1160 := by
  have key : ∀ x : ℚ, calculate_federal_tax x 0 = bracketLoop x brackets 0 0 := by
    intro x
    simp only [calculate_federal_tax]
    norm_num
  refine ⟨key income, ?_, ?_, ?_⟩
  · rw [key income, bracketLoop_eq_fedPiecewise]
  · rw [key 0, bracketLoop_eq_fedPiecewise]
    norm_num [fedPiecewise]
  · rw [key 11600, bracketLoop_eq_fedPiecewise]
    norm_num [fedPiecewise]

theorem C4_witness : (0:ℚ) ≤ 11600 ∧
    (calculate_federal_tax 11600 0 = bracketLoop 11600 brackets 0 0 ∧
      calculate_federal_tax 11600 0 = fedPiecewise 11600 ∧
      calculate_federal_tax 0 0 = 0 ∧
      calculate_federal_tax 11600 0 = 1160) :=
  ⟨by norm_num, C4_federal_flat 11600 (by norm_num)⟩

/-- C5: for fixed `age`, `ss_start_age` and non-negative `annual_ss_benefit`,
the monthly net component of the take-home converter is non-decreasing in
the gross annual withdrawal over `x ≥ 0`. -/
theorem C5_takehome_monotone (age ssa : ℕ) (ss : ℚ) (hss : 0 ≤ ss) (a b : ℚ)
    (ha : 0 ≤ a) (hab : a ≤ b) :
    (calculate_monthly_takehome a age ssa ss).1 ≤
      (calculate_monthly_takehome b age ssa ss).1 :=
  takehome_mono hss hab

theorem C5_witness : (0:ℚ) ≤ 35160 ∧ (0:ℚ) ≤ 20000 ∧ (20000:ℚ) ≤ 50000 ∧
    (calculate_monthly_takehome 20000 70 65 35160).1 ≤
      (calculate_monthly_takehome 50000 70 65 35160).1 :=
  ⟨by norm_num, by norm_num, by norm_num,
    C5_takehome_monotone 70 65 35160 (by norm_num) 20000 50000 (by norm_num) (by norm_num)⟩

/-- C7: on non-negative inputs, the taxable Social Security portion is
non-decreasing in the benefit, non-decreasing in the other income, and is
bounded above by `0.85 · benefit`. -/
theorem C7_taxable_monotone_bounded (b1 b2 o1 o2 : ℚ)
    (hb1 : 0 ≤ b1) (hb : b1 ≤ b2) (ho1 : 0 ≤ o1) (ho : o1 ≤ o2) :
    calculate_taxable_ss_portion b1 o1 ≤ calculate_taxable_ss_portion b2 o1 ∧
    calculate_taxable_ss_portion b1 o1 ≤ calculate_taxable_ss_portion b1 o2 ∧
    calculate_taxable_ss_portion b1 o1 ≤ 0.85 * b1 :=
  ⟨taxable_mono_benefit o1 hb1 hb, taxable_mono_income b1 hb1 ho, taxable_le b1 o1 hb1⟩

theorem C7_witness : (0:ℚ) ≤ 10000 ∧ (10000:ℚ) ≤ 35160 ∧ (0:ℚ) ≤ 20000 ∧ (20000:ℚ) ≤ 60000 ∧
    (calculate_taxable_ss_portion 10000 20000 ≤ calculate_taxable_ss_portion 35160 20000 ∧
      calculate_taxable_ss_portion 10000 20000 ≤ calculate_taxable_ss_portion 10000 60000 ∧
      calculate_taxable_ss_portion 10000 20000 ≤ 0.85 * 10000) :=
  ⟨by norm_num, by norm_num, by norm_num, by norm_num,
    C7_taxable_monotone_bounded 10000 35160 20000 60000
      (by norm_num) (by norm_num) (by norm_num) (by norm_num)⟩

/-- C2: Withdrawal Solver round-trip — whenever the target monthly net lies in
the range the binary search can reach (between the net at a zero withdrawal and
the net at the initial upper bracket bound), the solver's answer converts back
to a monthly net within $10 of the target. -/
theorem C2_solver_roundtrip (target ss : ℚ) (age ssa : ℕ) (hss : 0 ≤ ss)
    (hlo : (calculate_monthly_takehome 0 age ssa ss).1 ≤ target)
    (hhi : target ≤ (calculate_monthly_takehome
        (if ssa ≤ age then target * 12 else target * 12 * 1.5) age ssa ss).1) :
    |(calculate_monthly_takehome
        (calculate_annual_withdrawal_for_takehome target age ssa ss) age ssa ss).1 - target| < 10 := by
  have htn : 0 ≤ target := le_trans (takehome_zero_nonneg age ssa hss) hlo
  simp only [calculate_annual_withdrawal_for_takehome]
  by_cases hbr : ssa ≤ age
  · rw [if_pos hbr] at hhi
    rw [if_pos hbr]
    refine solveLoop_close _ target 0.079375 (by norm_num) (by norm_num)
      (fun a b hab => takehome_lipschitz hss hab) _ _ _ _ _ hlo hhi
      (by linarith) (by simpa using le_fuelFor (target * 12)) (fun d h => nomatch h) ?_
    intro _
    by_cases hw : 100 < target * 12 - 0
    · exact Or.inl hw
    · right
      show |(calculate_monthly_takehome 0 age ssa ss).1 - target| < 10
      have h3 := @takehome_lipschitz age ssa ss hss 0 (target * 12)
        (show (0:ℚ) ≤ target * 12 by linarith)
      rw [abs_of_nonpos (by linarith)]
      linarith
  · rw [if_neg hbr] at hhi
    rw [if_neg hbr]
    refine solveLoop_close _ target 0.079375 (by norm_num) (by norm_num)
      (fun a b hab => takehome_lipschitz hss hab) _ _ _ _ _ hlo hhi
      (by linarith) (by simpa using le_fuelFor (target * 12 * 1.5)) (fun d h => nomatch h) ?_
    intro _
    by_cases hw : 100 < target * 12 * 1.5 - 0
    · exact Or.inl hw
    · right
      show |(calculate_monthly_takehome 0 age ssa ss).1 - target| < 10
      have h3 := @takehome_lipschitz age ssa ss hss 0 (target * 12 * 1.5)
        (show (0:ℚ) ≤ target * 12 * 1.5 by linarith)
      rw [abs_of_nonpos (by linarith)]
      linarith

theorem C2_witness : (0:ℚ) ≤ 0 ∧
    (calculate_monthly_takehome 0 56 65 0).1 ≤ 100 ∧
    (100:ℚ) ≤ (calculate_monthly_takehome
      (if (65:ℕ) ≤ 56 then (100:ℚ) * 12 else (100:ℚ) * 12 * 1.5) 56 65 0).1 ∧
    |(calculate_monthly_takehome
        (calculate_annual_withdrawal_for_takehome 100 56 65 0) 56 65 0).1 - 100| < 10 := by
  have h1 : (calculate_monthly_takehome 0 56 65 0).1 ≤ 100 := by
    norm_num [calculate_monthly_takehome, calculate_federal_tax, calculate_nc_state_tax,
      calculate_taxable_ss_portion, brackets, bracketLoop]
  have h2 : (100:ℚ) ≤ (calculate_monthly_takehome
      (if (65:ℕ) ≤ 56 then (100:ℚ) * 12 else (100:ℚ) * 12 * 1.5) 56 65 0).1 := by
    rw [if_neg (by norm_num : ¬ ((65:ℕ) ≤ 56))]
    norm_num [calculate_monthly_takehome, calculate_federal_tax, calculate_nc_state_tax,
      calculate_taxable_ss_portion, brackets, bracketLoop]
  exact ⟨le_rfl, h1, h2, C2_solver_roundtrip 100 0 56 65 le_rfl h1 h2⟩

/-- C9: totality.  The embedded binary-search loop always reaches one of its
exit conditions with the fuel supplied (its value is unchanged by any extra
fuel — the Python `while` loop terminates and the solver returns its
best-effort answer rather than failing), and for every input, including
`volatility = 0`, `initial_balance = 0` and `target_monthly = 0`, the analysis
produces a fully formed result: one path per trial, one balance per age, one
percentile entry per age. -/
theorem C9_totality (ib mr vol g tm ss : ℚ) (sa ssa ea ns : ℕ) (ret : ℕ → ℕ → ℚ) (k : ℕ) :
    (solveLoop (fun x => (calculate_monthly_takehome x sa ssa ss).1) tm
        (fuelFor (if ssa ≤ sa then tm * 12 else tm * 12 * 1.5) + k) 0
        (if ssa ≤ sa then tm * 12 else tm * 12 * 1.5) 0 none =
      calculate_annual_withdrawal_for_takehome tm sa ssa ss) ∧
    (run_retirement_analysis ib mr vol g sa ssa ea tm ss ns ret).all_simulations.length = ns ∧
    (∀ p ∈ (run_retirement_analysis ib mr vol g sa ssa ea tm ss ns ret).all_simulations,
      p.length = ea + 1 - sa) ∧
    (run_retirement_analysis ib mr vol g sa ssa ea tm ss ns ret).p5.length = ea + 1 - sa := by
  refine ⟨?_, ?_, ?_, ?_⟩
  · simp only [calculate_annual_withdrawal_for_takehome]
    by_cases hbr : ssa ≤ sa
    · simp only [if_pos hbr]
      exact solveLoop_fuel_stable _ _ _ k _ _ _ _ (by simpa using le_fuelFor (tm * 12))
    · simp only [if_neg hbr]
      exact solveLoop_fuel_stable _ _ _ k _ _ _ _ (by simpa using le_fuelFor (tm * 12 * 1.5))
  · simp only [run_retirement_analysis]
    simp
  · intro p hp
    simp only [run_retirement_analysis] at hp
    rcases List.mem_map.mp hp with ⟨t, _, rfl⟩
    rw [simPath_length]
    simp
  · simp only [run_retirement_analysis]
    simp

/-- C10 (amended): the solver's result always lies in `[0, U]` where `U`
is the initial upper bracket bound — `target*12` when `age ≥ ss_start_age`,
`target*12*1.5` otherwise — and is exactly 0 whenever that bound `U` is at
most 100 (then the loop body never executes). -/
theorem C10_solver_bounds (target ss : ℚ) (age ssa : ℕ) (ht : 0 ≤ target) :
    (0 ≤ calculate_annual_withdrawal_for_takehome target age ssa ss ∧
      calculate_annual_withdrawal_for_takehome target age ssa ss ≤
        (if ssa ≤ age then target * 12 else target * 12 * 1.5)) ∧
    ((if ssa ≤ age then target * 12 else target * 12 * 1.5) ≤ 100 →
      calculate_annual_withdrawal_for_takehome target age ssa ss = 0) := by
  simp only [calculate_annual_withdrawal_for_takehome]
  by_cases hbr : ssa ≤ age
  · simp only [if_pos hbr]
    constructor
    · exact solveLoop_mem _ _ _ _ _ _ _ _ le_rfl (by linarith) le_rfl le_rfl (by linarith)
    · intro hU
      exact solveLoop_exit _ (by linarith)
  · simp only [if_neg hbr]
    constructor
    · exact solveLoop_mem _ _ _ _ _ _ _ _ le_rfl (by linarith) le_rfl le_rfl (by linarith)
    · intro hU
      exact solveLoop_exit _ (by linarith)

theorem C10_witness : (0:ℚ) ≤ 8 ∧
    ((0 ≤ calculate_annual_withdrawal_for_takehome 8 56 65 0 ∧
      calculate_annual_withdrawal_for_takehome 8 56 65 0 ≤
        (if (65:ℕ) ≤ 56 then (8:ℚ) * 12 else (8:ℚ) * 12 * 1.5)) ∧
    ((if (65:ℕ) ≤ 56 then (8:ℚ) * 12 else (8:ℚ) * 12 * 1.5) ≤ 100 →
      calculate_annual_withdrawal_for_takehome 8 56 65 0 = 0)) :=
  ⟨by norm_num, C10_solver_bounds 8 0 56 65 (by norm_num)⟩

/-- C10 counterexample: at `target_monthly = 8`, `age = 56 < ss_start_age = 65`,
`target*12 = 96 ≤ 100`, yet the loop runs (its bracket is `target*12*1.5 = 144`)
and returns `72`, not `0` — the claim's trigger `target*12 ≤ 100` is wrong for
the before-Social-Security branch. -/
theorem C10_counterexample :
    calculate_annual_withdrawal_for_takehome 8 56 65 0 = 72 ∧
    (8:ℚ) * 12 ≤ 100 ∧ (72:ℚ) ≠ 0 := by
  refine ⟨?_, by norm_num, by norm_num⟩
  have hf : fuelFor ((8:ℚ) * 12 * 1.5) = 143 + 1 := by
    have h : ((8:ℚ) * 12 * 1.5) = 144 := by norm_num
    rw [fuelFor, h]
    norm_num
    rfl
  have hmt : (calculate_monthly_takehome ((0 + 8 * 12 * 1.5) / 2) 56 65 0).1 = 5.115 := by
    norm_num [calculate_monthly_takehome, calculate_federal_tax, calculate_nc_state_tax,
      calculate_taxable_ss_portion, brackets, bracketLoop]
  simp only [calculate_annual_withdrawal_for_takehome]
  rw [if_neg (by norm_num : ¬ ((65:ℕ) ≤ 56))]
  rw [hf, solveLoop]
  rw [if_neg (by norm_num : ¬ ((8:ℚ) * 12 * 1.5 - 0 ≤ 100))]
  rw [if_pos]
  · norm_num
  · rw [hmt, abs_lt]
    constructor <;> norm_num

theorem count_percentage_bounds {α : Type} (l : List α) (p : α → Bool) (n : ℕ)
    (hlen : l.length = n) (hn : 0 < n) :
    0 ≤ ((l.countP p : ℕ) : ℚ) / (n : ℚ) * 100 ∧
      ((l.countP p : ℕ) : ℚ) / (n : ℚ) * 100 ≤ 100 := by
  have hn0 : (0:ℚ) < (n:ℚ) := by exact_mod_cast hn
  constructor
  · positivity
  · have hc : l.countP p ≤ n := hlen ▸ List.countP_le_length p
    have hcq : ((l.countP p : ℕ) : ℚ) ≤ (n : ℚ) := by exact_mod_cast hc
    have h1 : ((l.countP p : ℕ) : ℚ) / (n : ℚ) ≤ 1 := (div_le_one hn0).mpr hcq
    linarith

/-- C1 (amended): the success rate returned by the analysis is `100 ×` the
fraction of simulated paths whose final-year balance is strictly positive —
a percentage in `[0, 100]`, not the bare fraction. -/
theorem C1_success_rate_percentage (ib mr vol g : ℚ) (sa ssa ea : ℕ) (tm ss : ℚ)
    (ns : ℕ) (ret : ℕ → ℕ → ℚ) (hns : 1 ≤ ns) :
    (run_retirement_analysis ib mr vol g sa ssa ea tm ss ns ret).success_rate =
      100 * (((run_retirement_analysis ib mr vol g sa ssa ea tm ss ns ret).all_simulations.countP
          (fun p => decide (0 < p.getD (ea + 1 - sa - 1) 0)) : ℚ) / (ns : ℚ)) ∧
    0 ≤ (run_retirement_analysis ib mr vol g sa ssa ea tm ss ns ret).success_rate ∧
    (run_retirement_analysis ib mr vol g sa ssa ea tm ss ns ret).success_rate ≤ 100 := by
  simp only [run_retirement_analysis]
  rw [List.countP_map]
  simp only [Function.comp_def]
  refine ⟨by ring, ?_, ?_⟩
  · exact (count_percentage_bounds _ _ ns (by simp) (by omega)).1
  · exact (count_percentage_bounds _ _ ns (by simp) (by omega)).2

theorem C1_witness : (1:ℕ) ≤ 1 ∧
    ((run_retirement_analysis 1 0 0 0 56 65 56 0 0 1 (fun _ _ => 0)).success_rate =
      100 * (((run_retirement_analysis 1 0 0 0 56 65 56 0 0 1
          (fun _ _ => 0)).all_simulations.countP
          (fun p => decide (0 < p.getD (56 + 1 - 56 - 1) 0)) : ℚ) / ((1:ℕ) : ℚ)) ∧
    0 ≤ (run_retirement_analysis 1 0 0 0 56 65 56 0 0 1 (fun _ _ => 0)).success_rate ∧
    (run_retirement_analysis 1 0 0 0 56 65 56 0 0 1 (fun _ _ => 0)).success_rate ≤ 100) :=
  ⟨le_rfl, C1_success_rate_percentage 1 0 0 0 56 65 56 0 0 1 (fun _ _ => 0) le_rfl⟩

/-- C1 counterexample: with one trial whose single-year path ends at balance 1,
the code's success rate is `100`, while the claimed value — the fraction of
successful paths — is `1`; the two differ, because the code multiplies the
fraction by 100. -/
theorem C1_counterexample :
    (run_retirement_analysis 1 0 0 0 56 65 56 0 0 1 (fun _ _ => 0)).success_rate = 100 ∧
    ((run_retirement_analysis 1 0 0 0 56 65 56 0 0 1 (fun _ _ => 0)).all_simulations.countP
        (fun p => decide (0 < p.getD (56 + 1 - 56 - 1) 0)) : ℚ) / ((1:ℕ) : ℚ) = 1 ∧
    (100 : ℚ) ≠ 1 := by
  have hw : calculate_annual_withdrawal_for_takehome 0 56 65 0 = 0 := by
    simp only [calculate_annual_withdrawal_for_takehome]
    rw [if_neg (by norm_num : ¬ ((65:ℕ) ≤ 56))]
    have hf : fuelFor ((0:ℚ) * 12 * 1.5) = 0 := by
      have h : ((0:ℚ) * 12 * 1.5) = 0 := by norm_num
      rw [fuelFor, h]
      norm_num
    rw [hf]
    rfl
  have hw2 : calculate_annual_withdrawal_for_takehome 0 65 65 0 = 0 := by
    simp only [calculate_annual_withdrawal_for_takehome]
    rw [if_pos (by norm_num : (65:ℕ) ≤ 65)]
    have hf : fuelFor ((0:ℚ) * 12) = 0 := by
      have h : ((0:ℚ) * 12) = 0 := by norm_num
      rw [fuelFor, h]
      norm_num
    rw [hf]
    rfl
  refine ⟨?_, ?_, by norm_num⟩
  · simp only [run_retirement_analysis, hw, hw2]
    norm_num [simPath, List.range_succ]
  · simp only [run_retirement_analysis, hw, hw2]
    norm_num [simPath, List.range_succ]

theorem simPath_range_spec (ssa : ℕ) (g : ℚ) (r : ℕ → ℚ) (sa n : ℕ) (s : SimState) :
    (simPath ssa g r ((List.range n).map (fun i => sa + i)) 0 s).length = n ∧
    (0 < n →
      (simPath ssa g r ((List.range n).map (fun i => sa + i)) 0 s).getD 0 0 =
        s.balance * (1 + r 0) -
          (if sa < ssa then s.withdrawal_before else s.withdrawal_after)) ∧
    ∀ j, j + 1 < n →
      (simPath ssa g r ((List.range n).map (fun i => sa + i)) 0 s).getD (j + 1) 0 =
        (simPath ssa g r ((List.range n).map (fun i => sa + i)) 0 s).getD j 0 *
            (1 + r (j + 1)) -
          (if sa + (j + 1) < ssa
            then s.withdrawal_before * (1 + g) ^ (j + 1)
            else s.withdrawal_after * (1 + g) ^ (j + 1)) := by
  refine ⟨?_, ?_, ?_⟩
  · rw [simPath_length]; simp
  · intro hn
    obtain ⟨m, rfl⟩ : ∃ m, n = m + 1 := ⟨n - 1, by omega⟩
    rw [List.range_succ_eq_map]
    simp only [List.map_cons]
    rw [simPath_getD_zero]
    norm_num
    split_ifs <;> ring
  · intro j hj
    have hlen : j + 1 < ((List.range n).map (fun i => sa + i)).length := by simpa using hj
    rw [simPath_getD_succ ssa g r ((List.range n).map (fun i => sa + i)) 0 s j hlen]
    rw [map_range_getD _ _ _ hj]
    norm_num

/-- C6: in every simulated year of every trial, the recorded balance equals the
previous balance grown by that year's drawn return minus the inflation-escalated
withdrawal of the active track — before-SS while `age < ss_start_age`, after-SS
from then on — and both withdrawal tracks carry the factor
`(1+inflation_rate)^year` (both escalate every year, the inactive one
included); the first year starts from the initial balance. -/
theorem C6_sim_step (ib mr vol g : ℚ) (sa ssa ea : ℕ) (tm ss : ℚ) (ns : ℕ)
    (ret : ℕ → ℕ → ℚ) (t : ℕ) (ht : t < ns) :
    ((run_retirement_analysis ib mr vol g sa ssa ea tm ss ns ret).all_simulations.getD t
        []).length = ea + 1 - sa ∧
    (0 < ea + 1 - sa →
      ((run_retirement_analysis ib mr vol g sa ssa ea tm ss ns ret).all_simulations.getD t
          []).getD 0 0 =
        ib * (1 + ret t 0) -
          (if sa < ssa
            then (run_retirement_analysis ib mr vol g sa ssa ea tm ss ns
                ret).withdrawal_before_ss
            else (run_retirement_analysis ib mr vol g sa ssa ea tm ss ns
                ret).withdrawal_after_ss)) ∧
    ∀ j, j + 1 < ea + 1 - sa →
      ((run_retirement_analysis ib mr vol g sa ssa ea tm ss ns ret).all_simulations.getD t
          []).getD (j + 1) 0 =
        ((run_retirement_analysis ib mr vol g sa ssa ea tm ss ns ret).all_simulations.getD t
            []).getD j 0 * (1 + ret t (j + 1)) -
          (if sa + (j + 1) < ssa
            then (run_retirement_analysis ib mr vol g sa ssa ea tm ss ns
                ret).withdrawal_before_ss * (1 + g) ^ (j + 1)
            else (run_retirement_analysis ib mr vol g sa ssa ea tm ss ns
                ret).withdrawal_after_ss * (1 + g) ^ (j + 1)) := by
  simp only [run_retirement_analysis]
  rw [map_range_getD _ _ _ ht]
  exact simPath_range_spec ssa g (ret t) sa (ea + 1 - sa) _

theorem C6_witness : (0:ℕ) < 1 ∧ 0 + 1 < 57 + 1 - 56 ∧
    ((run_retirement_analysis 5 0 0 0 56 57 57 0 0 1 (fun _ _ => 0)).all_simulations.getD 0
        []).length = 57 + 1 - 56 ∧
    ((run_retirement_analysis 5 0 0 0 56 57 57 0 0 1 (fun _ _ => 0)).all_simulations.getD 0
        []).getD (0 + 1) 0 =
      ((run_retirement_analysis 5 0 0 0 56 57 57 0 0 1 (fun _ _ => 0)).all_simulations.getD 0
          []).getD 0 0 * (1 + (0:ℚ)) -
        (if 56 + (0 + 1) < 57
          then (run_retirement_analysis 5 0 0 0 56 57 57 0 0 1
              (fun _ _ => 0)).withdrawal_before_ss * (1 + (0:ℚ)) ^ (0 + 1)
          else (run_retirement_analysis 5 0 0 0 56 57 57 0 0 1
              (fun _ _ => 0)).withdrawal_after_ss * (1 + (0:ℚ)) ^ (0 + 1)) := by
  have h := C6_sim_step 5 0 0 0 56 57 57 0 0 1 (fun _ _ => 0) 0 (by norm_num)
  exact ⟨by norm_num, by norm_num, h.1, h.2.2 0 (by norm_num)⟩

/-- C8: in every analysis result, for every age index, the percentile bands are
ordered — 5th ≤ 25th ≤ 50th ≤ 75th ≤ 95th — each band being the
linear-interpolation percentile across all trials' balances at that age. -/
theorem C8_percentile_order (ib mr vol g : ℚ) (sa ssa ea : ℕ) (tm ss : ℚ) (ns : ℕ)
    (ret : ℕ → ℕ → ℚ) (hns : 1 ≤ ns) (i : ℕ) (hi : i < ea + 1 - sa) :
    (run_retirement_analysis ib mr vol g sa ssa ea tm ss ns ret).p5.getD i 0 ≤
        (run_retirement_analysis ib mr vol g sa ssa ea tm ss ns ret).p25.getD i 0 ∧
    (run_retirement_analysis ib mr vol g sa ssa ea tm ss ns ret).p25.getD i 0 ≤
        (run_retirement_analysis ib mr vol g sa ssa ea tm ss ns ret).p50.getD i 0 ∧
    (run_retirement_analysis ib mr vol g sa ssa ea tm ss ns ret).p50.getD i 0 ≤
        (run_retirement_analysis ib mr vol g sa ssa ea tm ss ns ret).p75.getD i 0 ∧
    (run_retirement_analysis ib mr vol g sa ssa ea tm ss ns ret).p75.getD i 0 ≤
        (run_retirement_analysis ib mr vol g sa ssa ea tm ss ns ret).p95.getD i 0 := by
  simp only [run_retirement_analysis]
  rw [map_range_getD _ _ _ hi, map_range_getD _ _ _ hi, map_range_getD _ _ _ hi,
    map_range_getD _ _ _ hi, map_range_getD _ _ _ hi]
  refine ⟨percentile_mono _ ?_ (by norm_num) (by norm_num) (by norm_num),
    percentile_mono _ ?_ (by norm_num) (by norm_num) (by norm_num),
    percentile_mono _ ?_ (by norm_num) (by norm_num) (by norm_num),
    percentile_mono _ ?_ (by norm_num) (by norm_num) (by norm_num)⟩ <;>
  · apply List.ne_nil_of_length_pos
    simp [columnAt]
    omega

theorem C8_witness : (1:ℕ) ≤ 2 ∧ (0:ℕ) < 56 + 1 - 56 ∧
    ((run_retirement_analysis 1 0 0 0 56 65 56 0 0 2 (fun _ _ => 0)).p5.getD 0 0 ≤
        (run_retirement_analysis 1 0 0 0 56 65 56 0 0 2 (fun _ _ => 0)).p25.getD 0 0 ∧
    (run_retirement_analysis 1 0 0 0 56 65 56 0 0 2 (fun _ _ => 0)).p25.getD 0 0 ≤
        (run_retirement_analysis 1 0 0 0 56 65 56 0 0 2 (fun _ _ => 0)).p50.getD 0 0 ∧
    (run_retirement_analysis 1 0 0 0 56 65 56 0 0 2 (fun _ _ => 0)).p50.getD 0 0 ≤
        (run_retirement_analysis 1 0 0 0 56 65 56 0 0 2 (fun _ _ => 0)).p75.getD 0 0 ∧
    (run_retirement_analysis 1 0 0 0 56 65 56 0 0 2 (fun _ _ => 0)).p75.getD 0 0 ≤
        (run_retirement_analysis 1 0 0 0 56 65 56 0 0 2 (fun _ _ => 0)).p95.getD 0 0) :=
  ⟨by norm_num, by norm_num,
    C8_percentile_order 1 0 0 0 56 65 56 0 0 2 (fun _ _ => 0) (by norm_num) 0 (by norm_num)⟩

end Retirement
